import Mathlib

/-!
Shallow embedding of the UART line-framing pipeline implemented in
`scripts/uart_listener.py` and of the diagnostic timing logic implemented in
`scripts/uart_debug.py`, together with theorems about the frame assembler,
the decoder, the packet classifier, the presence state machine, the emitter
and the diagnostic collision flag.

Bytes are modelled as natural numbers 0..255; Python strings are sequences of Unicode
code points, modelled as lists of natural numbers.
-/

namespace Uart

/-- A Python string: a sequence of Unicode code points. -/
abbrev PyStr := List Nat

/-- Code points of a Lean string literal, used to write concrete Python
strings in statements and expected outputs. -/
def pyStr (s : String) : PyStr := s.toList.map Char.toNat

/-- The frame delimiter byte, `b'\n'`. -/
def DELIM : Nat := 10

/-- The function `splitFrames buf` mirrors the listener's inner loop
`while b'\n' in line_buffer: line, line_buffer = line_buffer.split(b'\n', 1)`:
it returns the list of delimiter-terminated segments of `buf`, in order,
together with the trailing remainder that contains no delimiter. -/
def splitFrames : List Nat → List (List Nat) × List Nat
  | [] => ([], [])
  | b :: rest =>
    if b = DELIM then
      ([] :: (splitFrames rest).1, (splitFrames rest).2)
    else
      match splitFrames rest with
      | ([], rem) => ([], b :: rem)
      | (f :: fs, rem) => ((b :: f) :: fs, rem)

/-- The fixed buffer-overflow threshold of the listener (`> 10000` bytes). -/
def OVERFLOW : Nat := 10000

/-- Result of ingesting one chunk into the assembler: the frames extracted,
the new buffer contents, and the number of overflow warnings logged. -/
structure AsmResult where
  frames : List (List Nat)
  buffer : List Nat
  warnings : Nat
deriving DecidableEq

/-- One iteration of the listener's read loop, restricted to the assembler:
append the chunk to the buffer, extract every complete delimiter-terminated
frame, then apply the overflow policy
(`if len(line_buffer) > 10000: line_buffer = b''` plus one warning). -/
def ingest (buffer chunk : List Nat) : AsmResult :=
  let fr := splitFrames (buffer ++ chunk)
  if OVERFLOW < fr.2.length then ⟨fr.1, [], 1⟩ else ⟨fr.1, fr.2, 0⟩

/-- Run the assembler over a sequence of chunks, concatenating the frames
in arrival order and summing the warnings. -/
def runAssembler (buffer : List Nat) : List (List Nat) → AsmResult
  | [] => ⟨[], buffer, 0⟩
  | c :: cs =>
    let a := ingest buffer c
    let r := runAssembler a.buffer cs
    ⟨a.frames ++ r.frames, r.buffer, a.warnings + r.warnings⟩
/-- A UTF-8 continuation byte, `0x80..0xBF`. -/
def isCont (b : Nat) : Bool := 0x80 ≤ b && b ≤ 0xBF

/-- Decode one UTF-8-encoded code point from the front of a byte sequence:
returns the code point and the remaining bytes. Standard strict UTF-8:
overlong forms, surrogates and code points above `U+10FFFF` are rejected. -/
def utf8DecodeChar : List Nat → Option (Nat × List Nat)
  | [] => none
  | b1 :: rest =>
    if b1 < 0x80 then some (b1, rest)
    else if 0xC2 ≤ b1 && b1 ≤ 0xDF then
      match rest with
      | b2 :: rest2 =>
        if isCont b2 then some ((b1 - 0xC0) * 0x40 + (b2 - 0x80), rest2) else none
      | [] => none
    else if 0xE0 ≤ b1 && b1 ≤ 0xEF then
      match rest with
      | b2 :: b3 :: rest3 =>
        if (if b1 = 0xE0 then 0xA0 ≤ b2 && b2 ≤ 0xBF
            else if b1 = 0xED then 0x80 ≤ b2 && b2 ≤ 0x9F
            else isCont b2) && isCont b3 then
          some ((b1 - 0xE0) * 0x1000 + (b2 - 0x80) * 0x40 + (b3 - 0x80), rest3)
        else none
      | _ => none
    else if 0xF0 ≤ b1 && b1 ≤ 0xF4 then
      match rest with
      | b2 :: b3 :: b4 :: rest4 =>
        if (if b1 = 0xF0 then 0x90 ≤ b2 && b2 ≤ 0xBF
            else if b1 = 0xF4 then 0x80 ≤ b2 && b2 ≤ 0x8F
            else isCont b2) && isCont b3 && isCont b4 then
          some ((b1 - 0xF0) * 0x40000 + (b2 - 0x80) * 0x1000 +
                  (b3 - 0x80) * 0x40 + (b4 - 0x80), rest4)
        else none
      | _ => none
    else none

/-- Fuel-driven loop decoding a whole byte sequence; the fuel only serves
termination and is irrelevant once at least `l.length` (each step consumes at
least one byte). -/
def utf8DecodeLoop : Nat → List Nat → Option PyStr
  | _, [] => some []
  | 0, _ :: _ => none
  | fuel + 1, b :: rest =>
    match utf8DecodeChar (b :: rest) with
    | none => none
    | some (c, rest2) => (utf8DecodeLoop fuel rest2).map (fun cs => c :: cs)

/-- Strict UTF-8 decoding of a byte sequence into code points, the semantics
of the listener's `line.decode('utf-8')`; `none` models `UnicodeDecodeError`. -/
def utf8Decode (l : List Nat) : Option PyStr := utf8DecodeLoop l.length l

/-- A Unicode scalar value: any code point a Python `str` element can carry
(no surrogates, at most `U+10FFFF`). -/
def ValidCp (n : Nat) : Prop := n < 0xD800 ∨ (0xE000 ≤ n ∧ n < 0x110000)

instance (n : Nat) : Decidable (ValidCp n) := by unfold ValidCp; infer_instance

/-- Standard UTF-8 encoding of one code point (reference definition of
"valid UTF-8": a byte sequence is valid iff it is the encoding of a sequence
of Unicode scalar values). -/
def utf8EncodeCp (n : Nat) : List Nat :=
  if n < 0x80 then [n]
  else if n < 0x800 then [0xC0 + n / 0x40, 0x80 + n % 0x40]
  else if n < 0x10000 then
    [0xE0 + n / 0x1000, 0x80 + (n / 0x40) % 0x40, 0x80 + n % 0x40]
  else
    [0xF0 + n / 0x40000, 0x80 + (n / 0x1000) % 0x40,
     0x80 + (n / 0x40) % 0x40, 0x80 + n % 0x40]

/-- Standard UTF-8 encoding of a code-point sequence. -/
def utf8Encode (cs : PyStr) : List Nat := (cs.map utf8EncodeCp).flatten

/-- Lowercase hexadecimal digit for a value below 16. -/
def hexDigit (n : Nat) : Nat := if n < 10 then 48 + n else 87 + n

/-- Code points of `line.hex()`: two lowercase hexadecimal digits per byte. -/
def bytesHex (bs : List Nat) : PyStr :=
  (bs.map (fun b => [hexDigit (b / 16), hexDigit (b % 16)])).flatten

/-- The Decoder's output: UTF-8 text, or the hexadecimal fallback for bytes
that fail strict UTF-8 decoding. -/
inductive DecodedRecord
  | Text (s : PyStr)
  | RawHex (s : PyStr)
deriving DecidableEq

/-- The Decoder: `line.decode('utf-8')` yielding `Text`, with the
`UnicodeDecodeError` handler yielding `RawHex(line.hex())`. -/
def decode (frame : List Nat) : DecodedRecord :=
  match utf8Decode frame with
  | some cs => DecodedRecord.Text cs
  | none => DecodedRecord.RawHex (bytesHex frame)

/-- Whitespace removed by Python `str.strip()`: exactly the code points for
which `str.isspace()` holds — ASCII whitespace U+0009–U+000D and U+0020, the
separator controls U+001C–U+001F, NEL U+0085, NBSP U+00A0, the Ogham space
mark U+1680, the typographic spaces U+2000–U+200A, the line and paragraph
separators U+2028 and U+2029, the narrow and medium mathematical spaces
U+202F and U+205F, and the ideographic space U+3000. -/
def isPySpace (c : Nat) : Bool :=
  (9 ≤ c && c ≤ 13) || (28 ≤ c && c ≤ 32) || c = 133 || c = 160 || c = 5760 ||
  (8192 ≤ c && c ≤ 8202) || c = 8232 || c = 8233 || c = 8239 || c = 8287 ||
  c = 12288

/-- Python `s.strip()`: remove leading and trailing whitespace code points. -/
def pyStrip (cs : PyStr) : PyStr :=
  ((cs.dropWhile isPySpace).reverse.dropWhile isPySpace).reverse

/-- Whitespace skipped between JSON tokens. -/
def skipWs (cs : PyStr) : PyStr :=
  cs.dropWhile (fun c => c = 32 || c = 9 || c = 10 || c = 13)

/-- Body of a JSON string literal without escape sequences, up to the
closing quote. -/
def jstrAux : PyStr → PyStr → Option (PyStr × PyStr)
  | [], _ => none
  | c :: rest, acc =>
    if c = 34 then some (acc.reverse, rest)
    else if c = 92 then none
    else jstrAux rest (c :: acc)

/-- A JSON string literal: quote, escape-free content, quote. -/
def parseJStr : PyStr → Option (PyStr × PyStr)
  | [] => none
  | c :: rest => if c = 34 then jstrAux rest [] else none

/-- Scalar JSON values of the fragment modelled here. -/
inductive JScalar
  | jstr (s : PyStr)
  | jint (n : Int)
  | jtrue
  | jfalse
  | jnull
deriving DecidableEq

/-- A decimal digit code point. -/
def isDigit (c : Nat) : Bool := 48 ≤ c && c ≤ 57

/-- Value of a non-empty decimal digit string. -/
def digitsVal (ds : List Nat) : Nat := ds.foldl (fun acc d => acc * 10 + (d - 48)) 0

/-- One JSON value of the modelled fragment: a string literal, a decimal
integer (no leading zeros, as in the JSON grammar), `true`, `false` or
`null`. -/
def parseJValue (s : PyStr) : Option (JScalar × PyStr) :=
  match parseJStr s with
  | some (t, rest) => some (JScalar.jstr t, rest)
  | none =>
    match s with
    | 116 :: 114 :: 117 :: 101 :: rest => some (JScalar.jtrue, rest)
    | 102 :: 97 :: 108 :: 115 :: 101 :: rest => some (JScalar.jfalse, rest)
    | 110 :: 117 :: 108 :: 108 :: rest => some (JScalar.jnull, rest)
    | 45 :: rest =>
      match rest.takeWhile isDigit with
      | [] => none
      | 48 :: _ :: _ => none
      | ds => some (JScalar.jint (-(digitsVal ds : Int)), rest.dropWhile isDigit)
    | _ =>
      match s.takeWhile isDigit with
      | [] => none
      | 48 :: _ :: _ => none
      | ds => some (JScalar.jint (digitsVal ds), s.dropWhile isDigit)

/-- Members `"key": value` separated by commas (fuel-bounded; data-level
recursion consumes at least one code point per member). -/
def parseMembers : Nat → PyStr → Option (List (PyStr × JScalar) × PyStr)
  | 0, _ => none
  | fuel + 1, s =>
    match parseJStr (skipWs s) with
    | none => none
    | some (k, s1) =>
      match skipWs s1 with
      | c :: s2 =>
        if c = 58 then
          match parseJValue (skipWs s2) with
          | none => none
          | some (v, s3) =>
            match skipWs s3 with
            | c2 :: s4 =>
              if c2 = 44 then
                match parseMembers fuel s4 with
                | some (ms, s5) => some ((k, v) :: ms, s5)
                | none => none
              else some ([(k, v)], c2 :: s4)
            | [] => some ([(k, v)], [])
        else none
      | [] => none

/-- Model of Python `json.loads` on the fragment relevant to the presence
check: a single flat object whose keys are escape-free string literals and
whose values are escape-free strings, decimal integers, `true`, `false` or
`null`. A document outside this fragment (nested containers, fractional or
exponent numbers, escape sequences, a non-object top level) is modelled as a
parse failure even when `json.loads` would accept it; such documents occur
in no statement below, and this restriction is the stated modelling boundary
of the embedding. Parse failures in the code are swallowed by the bare
`except` with no presence handling. -/
def jsonLoadsFlat (cs : PyStr) : Option (List (PyStr × JScalar)) :=
  match skipWs cs with
  | [] => none
  | c :: s =>
    if c = 123 then
      match skipWs s with
      | [] => none
      | c2 :: s2 =>
        if c2 = 125 then (if skipWs s2 = [] then some [] else none)
        else
          match parseMembers (s.length + 1) (c2 :: s2) with
          | none => none
          | some (ms, s3) =>
            match skipWs s3 with
            | c3 :: s4 =>
              if c3 = 125 ∧ skipWs s4 = [] then some ms else none
            | [] => none
    else none

/-- Python `dict` lookup for an object built by `json.loads`: with duplicate
keys the last occurrence wins. -/
def pyDictGet (ms : List (PyStr × JScalar)) (k : PyStr) : Option JScalar :=
  match ms with
  | [] => none
  | (k2, v) :: rest =>
    match pyDictGet rest k with
    | some v2 => some v2
    | none => if k2 = k then some v else none

/-- The listener's presence-packet check on a decoded line:
`parsed = json.loads(decoded_data)` followed by
`parsed.get("node_type") == "HP" and "event" in parsed`, yielding the event
handed to `handle_presence_event`; parse failures are swallowed by the bare
`except` and yield no event. When the `event` member carries a non-string
value the code calls `handle_presence_event` with that value, whose two
string-equality guards then both fail; this model yields no event instead,
with the same observable outcome (no state change, command or emission). -/
def classifyPresence (cs : PyStr) : Option PyStr :=
  match jsonLoadsFlat cs with
  | none => none
  | some ms =>
    if pyDictGet ms (pyStr ("node_type")) = some (JScalar.jstr (pyStr ("HP"))) then
      match pyDictGet ms (pyStr ("event")) with
      | some (JScalar.jstr ev) => some ev
      | some _ => none
      | none => none
    else none

/-- Presence states: the source documents `'on', 'sleep', 'off'`; the spec
names `'on'` "active" and `'sleep'` "dimmed". -/
inductive PState
  | on
  | sleep
  | off
deriving DecidableEq

/-- Initial value of `presence_state`: `'on'` (active). -/
def presenceStateInit : PState := PState.on

/-- An LED brightness command dispatched through `send_led_command`. -/
structure ActuatorCommand where
  brightness : Nat
deriving DecidableEq

/-- One primary-channel emission: a `uart_chunk` or `uart_raw_hex` JSON line
on stdout, identified by its `data` payload. -/
inductive OutputEvent
  | chunk (data : PyStr)
  | rawHex (data : PyStr)
deriving DecidableEq

/-- Payload `json.dumps({"event": "screen_dim"})`. -/
def screenDimPayload : PyStr := pyStr ("\x7b\"event\": \"screen_dim\"\x7d")

/-- Payload `json.dumps({"event": "screen_brighten"})`. -/
def screenBrightenPayload : PyStr := pyStr ("\x7b\"event\": \"screen_brighten\"\x7d")

/-- Result of `handle_presence_event`: the new `presence_state`, the LED
commands dispatched, and the synthetic `uart_chunk` emissions. -/
structure PresenceResult where
  pstate : PState
  cmds : List ActuatorCommand
  synth : List OutputEvent
deriving DecidableEq

/-- Python `handle_presence_event(event)`: `EXIT` while `'on'` dims (brightness 10,
`screen_dim` emission), `ENTER` while `'sleep'` brightens (brightness 100,
`screen_brighten` emission), anything else is a no-op. -/
def handle_presence_event (st : PState) (event : PyStr) : PresenceResult :=
  if event = pyStr ("EXIT") ∧ st = PState.on then
    ⟨PState.sleep, [⟨10⟩], [OutputEvent.chunk screenDimPayload]⟩
  else if event = pyStr ("ENTER") ∧ st = PState.sleep then
    ⟨PState.on, [⟨100⟩], [OutputEvent.chunk screenBrightenPayload]⟩
  else ⟨st, [], []⟩

/-- Result of processing one extracted frame: the primary-channel emission
for the frame itself (if any), then the synthetic emissions, the actuator
commands, and the updated presence state. -/
structure FrameResult where
  primary : Option OutputEvent
  synth : List OutputEvent
  cmds : List ActuatorCommand
  pstate : PState
deriving DecidableEq

/-- The body of the listener's per-line processing: empty lines are skipped
(`if not line: continue`); decodable lines are stripped and emitted as a
`uart_chunk` when non-empty after stripping, then checked for a presence
packet; undecodable lines are emitted as `uart_raw_hex`. -/
def processFrame (st : PState) (line : List Nat) : FrameResult :=
  if line = [] then ⟨none, [], [], st⟩
  else
    match utf8Decode line with
    | some cs =>
      let d := pyStrip cs
      if d = [] then ⟨none, [], [], st⟩
      else
        match classifyPresence d with
        | some ev =>
          let r := handle_presence_event st ev
          ⟨some (OutputEvent.chunk d), r.synth, r.cmds, r.pstate⟩
        | none => ⟨some (OutputEvent.chunk d), [], [], st⟩
    | none => ⟨some (OutputEvent.rawHex (bytesHex line)), [], [], st⟩

/-- Emissions and commands of a sequence of frames, threading the presence
state; emission order is primary first, then the synthetic transition
emission, matching the print order in the source. -/
structure PipeResult where
  events : List OutputEvent
  cmds : List ActuatorCommand
  pstate : PState
deriving DecidableEq

def processFrames (st : PState) : List (List Nat) → PipeResult
  | [] => ⟨[], [], st⟩
  | f :: fs =>
    let r := processFrame st f
    let rest := processFrames r.pstate fs
    ⟨r.primary.toList ++ r.synth ++ rest.events, r.cmds ++ rest.cmds, rest.pstate⟩

/-- Full listener state: assembler buffer plus presence state. -/
structure SysState where
  buffer : List Nat
  pstate : PState
deriving DecidableEq

/-- Observable result of a run: emissions, commands, final state, warnings. -/
structure SysResult where
  events : List OutputEvent
  cmds : List ActuatorCommand
  final : SysState
  warnings : Nat
deriving DecidableEq

/-- The listener's read loop over a sequence of received chunks: each chunk
is appended to the buffer, complete frames are extracted and processed, and
the overflow policy is applied to the remainder. -/
def runSystem (s : SysState) : List (List Nat) → SysResult
  | [] => ⟨[], [], s, 0⟩
  | c :: cs =>
    let a := ingest s.buffer c
    let p := processFrames s.pstate a.frames
    let rest := runSystem ⟨a.buffer, p.pstate⟩ cs
    ⟨p.events ++ rest.events, p.cmds ++ rest.cmds, rest.final, a.warnings + rest.warnings⟩

/-- The presence state after a sequence of handled presence events. -/
def runPresence (st : PState) (evs : List PyStr) : PState :=
  evs.foldl (fun s e => (handle_presence_event s e).pstate) st

/-- From `uart_debug.py`: time since the previous packet in milliseconds; `0`
when there is no previous packet (`if last_packet_time:` is false both for
`None`, modelled as `none`, and for time `0.0`). -/
def timeDelta (last : Option ℚ) (now : ℚ) : ℚ :=
  match last with
  | none => 0
  | some t => if t = 0 then 0 else (now - t) * 1000

/-- From `uart_debug.py`: a frame is flagged as a suspected collision exactly when
`0 < time_delta < 10`. -/
def CollisionFlagged (delta : ℚ) : Prop := 0 < delta ∧ delta < 10

instance (delta : ℚ) : Decidable (CollisionFlagged delta) := by
  unfold CollisionFlagged
  infer_instance

theorem splitFrames_nil : splitFrames [] = ([], []) := rfl

theorem splitFrames_cons (b : Nat) (rest : List Nat) :
    splitFrames (b :: rest) =
      if b = DELIM then
        ([] :: (splitFrames rest).1, (splitFrames rest).2)
      else
        match splitFrames rest with
        | ([], rem) => ([], b :: rem)
        | (f :: fs, rem) => ((b :: f) :: fs, rem) := by
  rfl

/-- A buffer with no frames splits to itself as remainder. -/
theorem splitFrames_eq_nil_of_not_mem {l : List Nat} (h : DELIM ∉ l) :
    splitFrames l = ([], l) := by
  induction l with
  | nil => rfl
  | cons b rest ih =>
    rw [splitFrames_cons]
    have hb : b ≠ DELIM := fun hb => h (hb ▸ List.mem_cons_self b rest)
    have hr : DELIM ∉ rest := fun hr => h (List.mem_cons_of_mem b hr)
    rw [if_neg hb, ih hr]

/-- The remainder left by `splitFrames` never contains the delimiter. -/
theorem splitFrames_rem_not_mem (l : List Nat) :
    DELIM ∉ (splitFrames l).2 := by
  induction l with
  | nil => simp [splitFrames]
  | cons b rest ih =>
    rw [splitFrames_cons]
    by_cases hb : b = DELIM
    · simpa [hb] using ih
    · cases h : splitFrames rest with
      | mk fs rem =>
        cases fs with
        | nil =>
          simp only [if_neg hb]
          intro hmem
          rcases List.mem_cons.mp hmem with h1 | h1
          · exact hb h1.symm
          · exact ih (by rw [h]; exact h1)
        | cons f fs2 =>
          simp only [if_neg hb]
          intro hmem
          exact ih (by rw [h]; exact hmem)

/-- No extracted frame contains the delimiter. -/
theorem splitFrames_frames_not_mem (l : List Nat) :
    ∀ f ∈ (splitFrames l).1, DELIM ∉ f := by
  induction l with
  | nil => simp [splitFrames]
  | cons b rest ih =>
    rw [splitFrames_cons]
    by_cases hb : b = DELIM
    · simp only [if_pos hb]
      intro f hf
      rcases List.mem_cons.mp hf with h1 | h1
      · subst h1; simp
      · exact ih f h1
    · cases h : splitFrames rest with
      | mk fs rem =>
        cases fs with
        | nil => simp [if_neg hb]
        | cons g gs =>
          simp only [if_neg hb]
          intro f hf
          rcases List.mem_cons.mp hf with h1 | h1
          · subst h1
            intro hmem
            rcases List.mem_cons.mp hmem with h2 | h2
            · exact hb h2.symm
            · exact ih g (by rw [h]; exact List.mem_cons_self g gs) h2
          · exact ih f (by rw [h]; exact List.mem_cons_of_mem g h1)

/-- Exactly one frame per delimiter occurrence. -/
theorem splitFrames_length (l : List Nat) :
    ((splitFrames l).1).length = l.count DELIM := by
  induction l with
  | nil => simp [splitFrames]
  | cons b rest ih =>
    rw [splitFrames_cons]
    by_cases hb : b = DELIM
    · simp [hb, List.count_cons, ih]
    · cases h : splitFrames rest with
      | mk fs rem =>
        cases fs with
        | nil =>
          simp only [if_neg hb]
          simp [List.count_cons, hb, ← ih, h]
        | cons g gs =>
          simp only [if_neg hb]
          simp [List.count_cons, hb, ← ih, h]

/-- Reattaching each delimiter and the remainder reconstructs the buffer:
the frames are exactly the successive pre-delimiter byte ranges. -/
theorem splitFrames_reconstruct (l : List Nat) :
    (((splitFrames l).1).map (fun f => f ++ [DELIM])).flatten ++ (splitFrames l).2 = l := by
  induction l with
  | nil => simp [splitFrames]
  | cons b rest ih =>
    rw [splitFrames_cons]
    by_cases hb : b = DELIM
    · simp only [if_pos hb, List.map_cons, List.flatten_cons]
      simpa [hb] using ih
    · cases h : splitFrames rest with
      | mk fs rem =>
        cases fs with
        | nil =>
          simp only [if_neg hb]
          have := ih
          rw [h] at this
          simpa using congrArg (b :: ·) this
        | cons g gs =>
          simp only [if_neg hb]
          have := ih
          rw [h] at this
          simp only [List.map_cons, List.flatten_cons] at this ⊢
          simpa using congrArg (b :: ·) this

/-- Splitting a concatenation: the frames of `a ++ b` are the frames of `a`
followed by the frames of the remainder of `a` glued to `b`. This is the key
fact behind chunk-boundary invariance of the assembler. -/
theorem splitFrames_append (a b : List Nat) :
    splitFrames (a ++ b) =
      ((splitFrames a).1 ++ (splitFrames ((splitFrames a).2 ++ b)).1,
       (splitFrames ((splitFrames a).2 ++ b)).2) := by
  induction a with
  | nil => simp [splitFrames]
  | cons x a ih =>
    by_cases hx : x = DELIM
    · rw [List.cons_append, splitFrames_cons, if_pos hx, splitFrames_cons, if_pos hx, ih]
      simp
    · rw [List.cons_append, splitFrames_cons, if_neg hx, splitFrames_cons, if_neg hx, ih]
      cases h : splitFrames a with
      | mk fs rem =>
        cases fs with
        | nil =>
          simp only [List.nil_append]
          rw [List.cons_append, splitFrames_cons, if_neg hx]
        | cons g gs =>
          simp

/-- A delimiter-free segment followed by a delimiter splits off as a single
frame. -/
theorem splitFrames_frame_delim {f : List Nat} (h : DELIM ∉ f) (b : List Nat) :
    splitFrames (f ++ DELIM :: b) =
      (f :: (splitFrames b).1, (splitFrames b).2) := by
  induction f with
  | nil => rw [List.nil_append, splitFrames_cons, if_pos rfl]
  | cons x f ih =>
    have hx : x ≠ DELIM := fun hx => h (hx ▸ List.mem_cons_self x f)
    have hf : DELIM ∉ f := fun hm => h (List.mem_cons_of_mem x hm)
    rw [List.cons_append, splitFrames_cons, if_neg hx, ih hf]

theorem utf8DecodeLoop_nil (fuel : Nat) : utf8DecodeLoop fuel [] = some [] := by
  cases fuel <;> rfl

theorem utf8DecodeChar_one {b1 : Nat} (rest : List Nat) (h : b1 < 0x80) :
    utf8DecodeChar (b1 :: rest) = some (b1, rest) := by
  simp [utf8DecodeChar, h]

theorem utf8DecodeChar_two {b1 b2 : Nat} (rest : List Nat)
    (h1 : 0xC2 ≤ b1) (h2 : b1 ≤ 0xDF) (h3 : 0x80 ≤ b2) (h4 : b2 ≤ 0xBF) :
    utf8DecodeChar (b1 :: b2 :: rest) =
      some ((b1 - 0xC0) * 0x40 + (b2 - 0x80), rest) := by
  have e1 : ¬ b1 < 0x80 := by omega
  simp only [utf8DecodeChar, isCont, Bool.and_eq_true, decide_eq_true_eq]
  rw [if_neg e1, if_pos ⟨h1, h2⟩, if_pos ⟨h3, h4⟩]

theorem utf8DecodeChar_three {b1 b2 b3 : Nat} (rest : List Nat)
    (h1 : 0xE0 ≤ b1) (h2 : b1 ≤ 0xEF)
    (hb2 : (if b1 = 0xE0 then 0xA0 ≤ b2 && b2 ≤ 0xBF
            else if b1 = 0xED then 0x80 ≤ b2 && b2 ≤ 0x9F
            else isCont b2) = true)
    (h3 : 0x80 ≤ b3) (h4 : b3 ≤ 0xBF) :
    utf8DecodeChar (b1 :: b2 :: b3 :: rest) =
      some ((b1 - 0xE0) * 0x1000 + (b2 - 0x80) * 0x40 + (b3 - 0x80), rest) := by
  have e1 : ¬ b1 < 0x80 := by omega
  have e2 : ¬ (0xC2 ≤ b1 && b1 ≤ 0xDF) = true := by
    simp only [Bool.and_eq_true, decide_eq_true_eq]
    omega
  have e3 : (0xE0 ≤ b1 && b1 ≤ 0xEF) = true := by
    simp only [Bool.and_eq_true, decide_eq_true_eq]
    omega
  have e4 : isCont b3 = true := by
    simp only [isCont, Bool.and_eq_true, decide_eq_true_eq]
    omega
  simp only [utf8DecodeChar]
  rw [if_neg e1, if_neg e2, if_pos e3, hb2, e4, Bool.and_self, if_pos rfl]

theorem utf8DecodeChar_four {b1 b2 b3 b4 : Nat} (rest : List Nat)
    (h1 : 0xF0 ≤ b1) (h2 : b1 ≤ 0xF4)
    (hb2 : (if b1 = 0xF0 then 0x90 ≤ b2 && b2 ≤ 0xBF
            else if b1 = 0xF4 then 0x80 ≤ b2 && b2 ≤ 0x8F
            else isCont b2) = true)
    (h3 : 0x80 ≤ b3) (h4 : b3 ≤ 0xBF) (h5 : 0x80 ≤ b4) (h6 : b4 ≤ 0xBF) :
    utf8DecodeChar (b1 :: b2 :: b3 :: b4 :: rest) =
      some ((b1 - 0xF0) * 0x40000 + (b2 - 0x80) * 0x1000 +
              (b3 - 0x80) * 0x40 + (b4 - 0x80), rest) := by
  have e1 : ¬ b1 < 0x80 := by omega
  have e2 : ¬ (0xC2 ≤ b1 && b1 ≤ 0xDF) = true := by
    simp only [Bool.and_eq_true, decide_eq_true_eq]
    omega
  have e3 : ¬ (0xE0 ≤ b1 && b1 ≤ 0xEF) = true := by
    simp only [Bool.and_eq_true, decide_eq_true_eq]
    omega
  have e4 : (0xF0 ≤ b1 && b1 ≤ 0xF4) = true := by
    simp only [Bool.and_eq_true, decide_eq_true_eq]
    omega
  have e5 : isCont b3 = true := by
    simp only [isCont, Bool.and_eq_true, decide_eq_true_eq]
    omega
  have e6 : isCont b4 = true := by
    simp only [isCont, Bool.and_eq_true, decide_eq_true_eq]
    omega
  simp only [utf8DecodeChar]
  rw [if_neg e1, if_neg e2, if_neg e3, if_pos e4, hb2, e5, e6, Bool.and_self,
    Bool.and_self, if_pos rfl]

/-- Successful single-code-point decoding consumes at least one byte. -/
theorem utf8DecodeChar_length_lt {l rest2 : List Nat} {c : Nat}
    (h : utf8DecodeChar l = some (c, rest2)) : rest2.length < l.length := by
  match l with
  | [] => simp [utf8DecodeChar] at h
  | b1 :: rest =>
    simp only [utf8DecodeChar] at h
    repeat' split at h
    all_goals try simp_all
    all_goals omega

/-- The fuel of `utf8DecodeLoop` is irrelevant once it reaches the length of
the input. -/
theorem utf8DecodeLoop_fuel :
    ∀ (f1 : Nat) (f2 : Nat) (l : List Nat), l.length ≤ f1 → l.length ≤ f2 →
      utf8DecodeLoop f1 l = utf8DecodeLoop f2 l := by
  intro f1
  induction f1 with
  | zero =>
    intro f2 l h1 _
    have hl : l = [] := by cases l <;> simp_all
    subst hl
    rw [utf8DecodeLoop_nil, utf8DecodeLoop_nil]
  | succ k ih =>
    intro f2 l h1 h2
    cases l with
    | nil => rw [utf8DecodeLoop_nil, utf8DecodeLoop_nil]
    | cons b rest =>
      cases f2 with
      | zero => simp at h2
      | succ k2 =>
        cases hc : utf8DecodeChar (b :: rest) with
        | none => simp [utf8DecodeLoop, hc]
        | some p =>
          obtain ⟨c, rest2⟩ := p
          have hlt := utf8DecodeChar_length_lt hc
          simp only [utf8DecodeLoop, hc]
          rw [ih k2 rest2 (by simp at h1 hlt ⊢; omega) (by simp at h2 hlt ⊢; omega)]

theorem utf8EncodeCp_ne_nil (n : Nat) : utf8EncodeCp n ≠ [] := by
  unfold utf8EncodeCp
  split
  · simp
  · split
    · simp
    · split <;> simp

/-- Decoding one code point from the encoding of a valid code point, followed
by arbitrary bytes, recovers the code point and the following bytes. -/
theorem utf8DecodeChar_encodeCp {n : Nat} (h : ValidCp n) (rest : List Nat) :
    utf8DecodeChar (utf8EncodeCp n ++ rest) = some (n, rest) := by
  by_cases h1 : n < 0x80
  · simp only [utf8EncodeCp, if_pos h1, List.cons_append, List.nil_append]
    rw [utf8DecodeChar_one rest h1]
  · by_cases h2 : n < 0x800
    · simp only [utf8EncodeCp, if_neg h1, if_pos h2, List.cons_append, List.nil_append]
      rw [utf8DecodeChar_two rest (by omega) (by omega) (by omega) (by omega)]
      simp only [Option.some.injEq, Prod.mk.injEq]
      exact ⟨by omega, trivial⟩
    · by_cases h3 : n < 0x10000
      · have hval : n < 0xD800 ∨ 0xE000 ≤ n := by
          rcases h with h | h
          · exact Or.inl h
          · exact Or.inr h.1
        simp only [utf8EncodeCp, if_neg h1, if_neg h2, if_pos h3, List.cons_append,
          List.nil_append]
        rw [utf8DecodeChar_three rest (by omega) (by omega) ?hb2 (by omega) (by omega)]
        · simp only [Option.some.injEq, Prod.mk.injEq]
          exact ⟨by omega, trivial⟩
        case hb2 =>
          split
          · simp only [Bool.and_eq_true, decide_eq_true_eq]
            omega
          · split
            · simp only [Bool.and_eq_true, decide_eq_true_eq]
              omega
            · simp only [isCont, Bool.and_eq_true, decide_eq_true_eq]
              omega
      · have h4 : n < 0x110000 := by
          rcases h with h | h
          · omega
          · exact h.2
        simp only [utf8EncodeCp, if_neg h1, if_neg h2, if_neg h3, List.cons_append,
          List.nil_append]
        rw [utf8DecodeChar_four rest (by omega) (by omega) ?hb2 (by omega) (by omega)
          (by omega) (by omega)]
        · simp only [Option.some.injEq, Prod.mk.injEq]
          exact ⟨by omega, trivial⟩
        case hb2 =>
          split
          · simp only [Bool.and_eq_true, decide_eq_true_eq]
            omega
          · split
            · simp only [Bool.and_eq_true, decide_eq_true_eq]
              omega
            · simp only [isCont, Bool.and_eq_true, decide_eq_true_eq]
              omega

/-- Decoding the encoding of a valid code-point sequence succeeds and
recovers the sequence (loop form, any sufficient fuel). -/
theorem utf8DecodeLoop_encode :
    ∀ (cs : PyStr) (fuel : Nat), (∀ c ∈ cs, ValidCp c) →
      (utf8Encode cs).length ≤ fuel → utf8DecodeLoop fuel (utf8Encode cs) = some cs := by
  intro cs
  induction cs with
  | nil =>
    intro fuel _ _
    simp only [utf8Encode, List.map_nil, List.flatten_nil, utf8DecodeLoop_nil]
  | cons c cs ih =>
    intro fuel h hf
    have hc : ValidCp c := h c (List.mem_cons_self c cs)
    have hcs : ∀ x ∈ cs, ValidCp x := fun x hx => h x (List.mem_cons_of_mem c hx)
    have henc : utf8Encode (c :: cs) = utf8EncodeCp c ++ utf8Encode cs := by
      simp [utf8Encode]
    cases he : utf8EncodeCp c with
    | nil => exact absurd he (utf8EncodeCp_ne_nil c)
    | cons b bs =>
      have hlen : (utf8Encode (c :: cs)).length = bs.length + 1 + (utf8Encode cs).length := by
        rw [henc, he]
        simp
        omega
      cases hfuel : fuel with
      | zero =>
        exfalso
        rw [hfuel, Nat.le_zero] at hf
        omega
      | succ k =>
        rw [henc, he, List.cons_append]
        simp only [utf8DecodeLoop]
        rw [← List.cons_append, ← he, utf8DecodeChar_encodeCp hc]
        have hk : (utf8Encode cs).length ≤ k := by
          rw [hfuel] at hf
          omega
        simp [ih k hcs hk]

/-- Round trip: strict UTF-8 decoding inverts UTF-8 encoding of any sequence
of Unicode scalar values. -/
theorem utf8Decode_encode {cs : PyStr} (h : ∀ c ∈ cs, ValidCp c) :
    utf8Decode (utf8Encode cs) = some cs := by
  unfold utf8Decode
  exact utf8DecodeLoop_encode cs (utf8Encode cs).length h le_rfl

/-- Any successful single-code-point decode comes from the UTF-8 encoding of
a Unicode scalar value: strict decoding only accepts canonical encodings. -/
theorem utf8DecodeChar_some_eq {l rest2 : List Nat} {c : Nat}
    (h : utf8DecodeChar l = some (c, rest2)) :
    ValidCp c ∧ l = utf8EncodeCp c ++ rest2 := by
  match l with
  | [] => simp [utf8DecodeChar] at h
  | b1 :: rest =>
    simp only [utf8DecodeChar, isCont, Bool.and_eq_true, decide_eq_true_eq] at h
    repeat' split at h
    all_goals try exact (Option.noConfusion h)
    all_goals simp only [Option.some.injEq, Prod.mk.injEq] at h
    all_goals obtain ⟨hv, hr⟩ := h
    all_goals subst hv
    all_goals subst hr
    all_goals try simp only [Bool.and_eq_true, decide_eq_true_eq] at *
    all_goals constructor
    all_goals try (simp only [ValidCp]; omega)
    all_goals simp only [utf8EncodeCp]
    all_goals repeat' split
    all_goals try (exfalso; omega)
    all_goals try simp [List.cons_append, List.cons.injEq]
    all_goals omega

theorem utf8DecodeLoop_some :
    ∀ (fuel : Nat) (l : List Nat) (cs : PyStr), utf8DecodeLoop fuel l = some cs →
      (∀ c ∈ cs, ValidCp c) ∧ l = utf8Encode cs := by
  intro fuel
  induction fuel with
  | zero =>
    intro l cs h
    cases l with
    | nil =>
      rw [utf8DecodeLoop_nil, Option.some.injEq] at h
      subst h
      exact ⟨by simp, by simp [utf8Encode]⟩
    | cons b rest => exact Option.noConfusion h
  | succ k ih =>
    intro l cs h
    cases l with
    | nil =>
      rw [utf8DecodeLoop_nil, Option.some.injEq] at h
      subst h
      exact ⟨by simp, by simp [utf8Encode]⟩
    | cons b rest =>
      simp only [utf8DecodeLoop] at h
      cases hc : utf8DecodeChar (b :: rest) with
      | none => rw [hc] at h; exact Option.noConfusion h
      | some p =>
        obtain ⟨c0, rest2⟩ := p
        rw [hc] at h
        have h2 : Option.map (fun cs => c0 :: cs) (utf8DecodeLoop k rest2) = some cs := h
        cases hl : utf8DecodeLoop k rest2 with
        | none => rw [hl] at h2; exact Option.noConfusion h2
        | some cs2 =>
          rw [hl] at h2
          simp only [Option.map_some', Option.some.injEq] at h2
          subst h2
          obtain ⟨hval2, henc2⟩ := ih rest2 cs2 hl
          obtain ⟨hval0, henc0⟩ := utf8DecodeChar_some_eq hc
          constructor
          · intro x hx
            rcases List.mem_cons.mp hx with hx | hx
            · exact hx ▸ hval0
            · exact hval2 x hx
          · rw [henc0, henc2]
            simp [utf8Encode]

/-- Any byte sequence accepted by strict UTF-8 decoding is the encoding of
the (uniquely determined) decoded scalar-value sequence. -/
theorem utf8Decode_some_eq {l : List Nat} {cs : PyStr}
    (h : utf8Decode l = some cs) :
    (∀ c ∈ cs, ValidCp c) ∧ l = utf8Encode cs :=
  utf8DecodeLoop_some l.length l cs h


/-- As long as no overflow warning fires, running the assembler over chunks
reproduces exactly the canonical frame decomposition of the concatenation,
starting from any delimiter-free buffer. -/
theorem runAssembler_no_overflow :
    ∀ (chunks : List (List Nat)) (buffer : List Nat), DELIM ∉ buffer →
      (runAssembler buffer chunks).warnings = 0 →
      (runAssembler buffer chunks).frames = (splitFrames (buffer ++ chunks.flatten)).1 ∧
      (runAssembler buffer chunks).buffer = (splitFrames (buffer ++ chunks.flatten)).2 := by
  intro chunks
  induction chunks with
  | nil =>
    intro buffer hb _
    rw [runAssembler]
    have := splitFrames_eq_nil_of_not_mem hb
    simp [this]
  | cons c cs ih =>
    intro buffer hb hw
    rw [runAssembler] at hw ⊢
    by_cases hov : OVERFLOW < (splitFrames (buffer ++ c)).2.length
    · exfalso
      simp only [ingest, if_pos hov] at hw
      omega
    · simp only [ingest, if_neg hov] at hw ⊢
      have hrem : DELIM ∉ (splitFrames (buffer ++ c)).2 :=
        splitFrames_rem_not_mem (buffer ++ c)
      have hw2 : (runAssembler (splitFrames (buffer ++ c)).2 cs).warnings = 0 := by
        simp at hw
        omega
      obtain ⟨hf, hbuf⟩ := ih (splitFrames (buffer ++ c)).2 hrem hw2
      have happ := splitFrames_append (buffer ++ c) cs.flatten
      constructor
      · simp only [hf]
        rw [show buffer ++ (c :: cs).flatten = (buffer ++ c) ++ cs.flatten by simp]
        rw [happ]
      · simp only [hbuf]
        rw [show buffer ++ (c :: cs).flatten = (buffer ++ c) ++ cs.flatten by simp]
        rw [happ]

/-- Claim C2: for every sequence of chunks whose run triggers no overflow
warning, the assembler yields frames equal to the canonical pre-delimiter
decomposition of the concatenation — exactly `count DELIM` frames, in
arrival order, reconstructing the concatenation with one delimiter after
each frame — independently of how the bytes are partitioned into chunks. -/
theorem assembler_chunk_invariance (chunks : List (List Nat))
    (h : (runAssembler [] chunks).warnings = 0) :
    (runAssembler [] chunks).frames = (splitFrames chunks.flatten).1 ∧
    (splitFrames chunks.flatten).1.length = chunks.flatten.count DELIM ∧
    ((splitFrames chunks.flatten).1.map (fun f => f ++ [DELIM])).flatten ++
        (splitFrames chunks.flatten).2 = chunks.flatten ∧
    (∀ f ∈ (splitFrames chunks.flatten).1, DELIM ∉ f) ∧
    DELIM ∉ (splitFrames chunks.flatten).2 := by
  refine ⟨?_, splitFrames_length _, splitFrames_reconstruct _,
    splitFrames_frames_not_mem _, splitFrames_rem_not_mem _⟩
  have := (runAssembler_no_overflow chunks [] (by simp) h).1
  simpa using this

/-- Witness for C2 at a concrete chunk sequence whose boundaries do not
align with the delimiters. -/
theorem assembler_chunk_invariance_witness :
    (runAssembler [] [[104, 10, 104], [10]]).frames = (splitFrames [104, 10, 104, 10]).1 ∧
    (splitFrames [104, 10, 104, 10]).1.length = [104, 10, 104, 10].count DELIM :=
  ⟨(assembler_chunk_invariance [[104, 10, 104], [10]] (by decide)).1,
   (assembler_chunk_invariance [[104, 10, 104], [10]] (by decide)).2.1⟩

/-- Claim C1 as stated is false on the code: a chunk consisting of a single
delimiter makes the assembler yield one (empty) frame, but the run emits no
output event at all — the listener skips empty frames
(`if not line: continue`) before any decoding or emission. -/
theorem frame_emission_counterexample :
    (ingest [] [DELIM]).frames.length = 1 ∧
    (runSystem ⟨[], PState.on⟩ [[DELIM]]).events = [] ∧
    (processFrame PState.on []).primary = none := by decide

/-- Claim C1 amended: a frame produces exactly one primary-channel emission
iff it is non-empty and its decoded text (when it decodes) does not strip to
the empty string; empty frames and whitespace-only frames are skipped with
no emission. -/
theorem frame_emission_amended (st : PState) (frame : List Nat) :
    (processFrame st frame).primary ≠ none ↔
      (frame ≠ [] ∧ ∀ cs, utf8Decode frame = some cs → pyStrip cs ≠ []) := by
  unfold processFrame
  by_cases h : frame = []
  · simp [h]
  · simp only [if_neg h]
    cases hd : utf8Decode frame with
    | none => simp [h, hd]
    | some cs =>
      by_cases hs : pyStrip cs = []
      · simp [h, hd, hs]
      · cases hc : classifyPresence (pyStrip cs) <;> simp [h, hd, hs, hc]

/-- Witness for the amended C1: the frame `b'h'` is emitted, while the frame
`b'\x1c'` (the file-separator control, which Python `str.strip()` removes)
strips to the empty string and is not emitted. -/
theorem frame_emission_amended_witness :
    (processFrame PState.on [104]).primary ≠ none ∧
    (processFrame PState.on [28]).primary = none :=
  ⟨(frame_emission_amended PState.on [104]).mpr
    ⟨by decide, fun cs hcs => by
      have h0 : utf8Decode [104] = some [104] := by decide
      rw [h0, Option.some.injEq] at hcs
      subst hcs
      decide⟩,
   by
    by_contra hne
    have h2 := ((frame_emission_amended PState.on [28]).mp hne).2 [28] (by decide)
    exact h2 (by decide)⟩

/-- Claim C3: with the presence state active (`'on'`), ingesting the single
chunk `b'{"node_type":"HP","event":"EXIT"}\n'` emits exactly the
`uart_chunk` event carrying that payload followed by exactly one synthetic
`screen_dim` event, dispatches exactly one `ActuatorCommand` with
brightness 10, and leaves the presence state dimmed (`'sleep'`). -/
theorem end_to_end_exit_scenario :
    runSystem ⟨[], PState.on⟩
        [pyStr ("\x7b\"node_type\":\"HP\",\"event\":\"EXIT\"\x7d") ++ [DELIM]] =
      ⟨[OutputEvent.chunk (pyStr ("\x7b\"node_type\":\"HP\",\"event\":\"EXIT\"\x7d")),
        OutputEvent.chunk screenDimPayload],
       [⟨10⟩], ⟨[], PState.sleep⟩, 0⟩ := by decide

/-- Claim C4: the Decoder is total and deterministic; frames that are the
UTF-8 encoding of a scalar-value sequence decode to `Text` with exactly that
sequence, and all other frames decode to `RawHex` with the hexadecimal
rendering of the raw bytes. -/
theorem decode_total_deterministic (frame : List Nat) :
    (∀ cs : PyStr, (∀ c ∈ cs, ValidCp c) → frame = utf8Encode cs →
        decode frame = DecodedRecord.Text cs) ∧
    ((¬ ∃ cs : PyStr, (∀ c ∈ cs, ValidCp c) ∧ frame = utf8Encode cs) →
        decode frame = DecodedRecord.RawHex (bytesHex frame)) ∧
    decode frame = decode frame := by
  refine ⟨?_, ?_, rfl⟩
  · intro cs hv he
    subst he
    unfold decode
    rw [utf8Decode_encode hv]
  · intro hn
    unfold decode
    cases hd : utf8Decode frame with
    | none => rfl
    | some cs =>
      exact absurd ⟨cs, (utf8Decode_some_eq hd).1, (utf8Decode_some_eq hd).2⟩ hn

/-- Witness for C4: a valid UTF-8 frame decodes to its text; the invalid
frame `[0xFF]` decodes to its hexadecimal fallback. -/
theorem decode_total_deterministic_witness :
    decode (utf8Encode [104]) = DecodedRecord.Text [104] ∧
    decode [255] = DecodedRecord.RawHex (bytesHex [255]) :=
  ⟨(decode_total_deterministic (utf8Encode [104])).1 [104] (by decide) rfl,
   (decode_total_deterministic [255]).2.1 (fun hex => by
      obtain ⟨cs, hv, he⟩ := hex
      have h1 := utf8Decode_encode hv
      rw [← he] at h1
      rw [show utf8Decode [255] = none from by decide] at h1
      exact Option.noConfusion h1)⟩

/-- Claim C5: every `(state, event)` pair other than `('on', "EXIT")` and
`('sleep', "ENTER")` is a strict no-op of the presence state machine: same
state, no actuator command, no synthetic emission. -/
theorem presence_other_pairs_noop (st : PState) (ev : PyStr)
    (h1 : ¬ (ev = pyStr ("EXIT") ∧ st = PState.on))
    (h2 : ¬ (ev = pyStr ("ENTER") ∧ st = PState.sleep)) :
    handle_presence_event st ev = ⟨st, [], []⟩ := by
  unfold handle_presence_event
  rw [if_neg h1, if_neg h2]

/-- Witness for C5: a redundant `EXIT` while dimmed and a redundant `ENTER`
while active are both no-ops. -/
theorem presence_other_pairs_noop_witness :
    handle_presence_event PState.sleep (pyStr ("EXIT")) = ⟨PState.sleep, [], []⟩ ∧
    handle_presence_event PState.on (pyStr ("ENTER")) = ⟨PState.on, [], []⟩ :=
  ⟨presence_other_pairs_noop PState.sleep (pyStr ("EXIT")) (by decide) (by decide),
   presence_other_pairs_noop PState.on (pyStr ("ENTER")) (by decide) (by decide)⟩

/-- Claim C6: whenever an ingest step leaves more than 10,000 delimiter-less
bytes in the buffer, the entire buffer is discarded, exactly one diagnostic
warning is raised, no frame is yielded for the discarded bytes (the frames
are exactly those extracted before the remainder), and a subsequent
delimited frame is assembled from the now-empty buffer and processed exactly
as `processFrame` prescribes. -/
theorem overflow_discard_and_recovery (st : PState) (buffer chunk next : List Nat)
    (h2 : OVERFLOW < (splitFrames (buffer ++ chunk)).2.length)
    (h3 : DELIM ∉ next) :
    (ingest buffer chunk).buffer = [] ∧
    (ingest buffer chunk).warnings = 1 ∧
    (ingest buffer chunk).frames = (splitFrames (buffer ++ chunk)).1 ∧
    runSystem ⟨(ingest buffer chunk).buffer, st⟩ [next ++ [DELIM]] =
      ⟨(processFrame st next).primary.toList ++ (processFrame st next).synth,
       (processFrame st next).cmds,
       ⟨[], (processFrame st next).pstate⟩, 0⟩ := by
  have e1 : ingest buffer chunk = ⟨(splitFrames (buffer ++ chunk)).1, [], 1⟩ := by
    simp only [ingest]
    rw [if_pos h2]
  have hb : splitFrames (next ++ [DELIM]) = ([next], []) := by
    have h5 := splitFrames_frame_delim h3 ([] : List Nat)
    simpa [splitFrames] using h5
  have e2 : ingest [] (next ++ [DELIM]) = ⟨[next], [], 0⟩ := by
    simp only [ingest, List.nil_append, hb]
    rw [if_neg (by simp [OVERFLOW])]
  refine ⟨by rw [e1], by rw [e1], by rw [e1], ?_⟩
  rw [e1]
  simp only [runSystem, e2, processFrames]
  simp

/-- Witness for C6: 10,001 delimiter-less bytes are discarded whole with one
warning, and a following `b'B\n'` frame is emitted as `uart_chunk "B"` from
the cleared buffer. -/
theorem overflow_discard_and_recovery_witness :
    (ingest [] (List.replicate 10001 65)).buffer = [] ∧
    (ingest [] (List.replicate 10001 65)).warnings = 1 ∧
    runSystem ⟨[], PState.on⟩ [[66] ++ [DELIM]] =
      ⟨[OutputEvent.chunk (pyStr ("B"))], [], ⟨[], PState.on⟩, 0⟩ := by
  have hm : DELIM ∉ List.replicate 10001 65 := by
    intro hmem
    have := List.eq_of_mem_replicate hmem
    simp [DELIM] at this
  have h2 : OVERFLOW < (splitFrames ([] ++ List.replicate 10001 65)).2.length := by
    rw [List.nil_append, splitFrames_eq_nil_of_not_mem hm]
    rw [List.length_replicate]
    decide
  obtain ⟨ha, hw, _, hrun⟩ := overflow_discard_and_recovery PState.on []
    (List.replicate 10001 65) [66] h2 (by decide)
  rw [ha] at hrun
  refine ⟨ha, hw, ?_⟩
  rw [hrun]
  decide

/-- Claim C7: the diagnostic collision flag is raised exactly when the
inter-arrival delta in milliseconds lies strictly between 0 and 10; with no
previous arrival the delta is 0 and the flag is never raised; 5 ms apart is
flagged, 50 ms apart is not. -/
theorem collision_flag_characterization (now : ℚ) :
    (timeDelta none now = 0 ∧ ¬ CollisionFlagged (timeDelta none now)) ∧
    (∀ t : ℚ, t ≠ 0 →
      (CollisionFlagged (timeDelta (some t) now) ↔
        0 < (now - t) * 1000 ∧ (now - t) * 1000 < 10)) ∧
    CollisionFlagged (timeDelta (some 1) (1 + 5 / 1000)) ∧
    ¬ CollisionFlagged (timeDelta (some 1) (1 + 50 / 1000)) := by
  refine ⟨⟨rfl, ?_⟩, ?_, ?_, ?_⟩
  · simp [timeDelta, CollisionFlagged]
  · intro t ht
    simp only [timeDelta]
    rw [if_neg ht]
    exact Iff.rfl
  · norm_num [timeDelta, CollisionFlagged]
  · norm_num [timeDelta, CollisionFlagged]

/-- Witness for C7 at a concrete pair of arrival times 5 ms apart. -/
theorem collision_flag_characterization_witness :
    CollisionFlagged (timeDelta (some 1) (1 + 5 / 1000)) ↔
      0 < ((1 + 5 / 1000 : ℚ) - 1) * 1000 ∧ ((1 + 5 / 1000 : ℚ) - 1) * 1000 < 10 :=
  (collision_flag_characterization (1 + 5 / 1000)).2.1 1 (by norm_num)

theorem runPresence_two_valued_aux :
    ∀ (evs : List PyStr) (st : PState),
      (st = PState.on ∨ st = PState.sleep) →
      (runPresence st evs = PState.on ∨ runPresence st evs = PState.sleep) := by
  intro evs
  induction evs with
  | nil =>
    intro st h
    simpa [runPresence] using h
  | cons e evs ih =>
    intro st h
    have hstep : (handle_presence_event st e).pstate = PState.on ∨
        (handle_presence_event st e).pstate = PState.sleep := by
      unfold handle_presence_event
      split
      · simp
      · split
        · simp
        · simpa using h
    have hstepeq : runPresence st (e :: evs) =
        runPresence (handle_presence_event st e).pstate evs := by
      simp [runPresence]
    rw [hstepeq]
    exact ih _ hstep

/-- Claim C8: the presence state starts as `'on'` (active) and, whatever
sequence of events is handled, remains in the two-value set
`{'on', 'sleep'}`; the documented third state `'off'` is never reached. -/
theorem presence_state_two_valued (evs : List PyStr) :
    presenceStateInit = PState.on ∧
    (runPresence presenceStateInit evs = PState.on ∨
     runPresence presenceStateInit evs = PState.sleep) :=
  ⟨rfl, runPresence_two_valued_aux evs presenceStateInit (Or.inl rfl)⟩

/-- Claim C9: frame extraction is unaffected by the overflow policy — the
frames of an ingest step are always the full canonical frames of
buffer-plus-chunk, the discarded remainder never contains a delimiter, and a
delimited frame of any length `n` (in particular beyond 10,000 bytes) is
extracted whole. -/
theorem no_frame_length_bound (buffer chunk : List Nat) :
    (ingest buffer chunk).frames = (splitFrames (buffer ++ chunk)).1 ∧
    DELIM ∉ (splitFrames (buffer ++ chunk)).2 ∧
    ∀ n : Nat, (ingest [] (List.replicate n 65 ++ [DELIM])).frames =
      [List.replicate n 65] := by
  refine ⟨?_, splitFrames_rem_not_mem _, ?_⟩
  · simp only [ingest]
    split <;> rfl
  · intro n
    have hm : DELIM ∉ List.replicate n 65 := by
      intro hmem
      have := List.eq_of_mem_replicate hmem
      simp [DELIM] at this
    have hs : splitFrames (List.replicate n 65 ++ [DELIM]) =
        ([List.replicate n 65], []) := by
      have h5 := splitFrames_frame_delim hm ([] : List Nat)
      simpa [splitFrames] using h5
    simp [ingest, hs, OVERFLOW]

/-- Claim C10: an emitted decodable frame's payload is the decoded text with
leading and trailing whitespace stripped — not the byte-exact decoding — and
a frame whose decoding is entirely whitespace produces no emission. -/
theorem emitted_payload_is_stripped (st : PState) (frame : List Nat) (cs : PyStr)
    (hne : frame ≠ []) (hdec : utf8Decode frame = some cs) :
    (pyStrip cs ≠ [] →
      (processFrame st frame).primary = some (OutputEvent.chunk (pyStrip cs))) ∧
    (pyStrip cs = [] → (processFrame st frame).primary = none) := by
  unfold processFrame
  rw [if_neg hne]
  constructor
  · intro hs
    simp only [hdec]
    rw [if_neg hs]
    cases hc : classifyPresence (pyStrip cs) <;> simp [hc]
  · intro hs
    simp only [hdec]
    rw [if_pos hs]

/-- Witness for C10: the frame `b' hi '` is emitted with payload `"hi"`; the
all-whitespace frame `b'  '` and the frame `b'\x1c'` (a non-ASCII member of
Python's `str.strip()` whitespace set) are not emitted. -/
theorem emitted_payload_is_stripped_witness :
    (processFrame PState.on [32, 104, 105, 32]).primary =
        some (OutputEvent.chunk (pyStr ("hi"))) ∧
    (processFrame PState.on [32, 32]).primary = none ∧
    (processFrame PState.on [28]).primary = none := by
  refine ⟨?_, ?_, ?_⟩
  · have h := (emitted_payload_is_stripped PState.on [32, 104, 105, 32]
        [32, 104, 105, 32] (by decide) (by decide)).1 (by decide)
    rw [h]
    decide
  · exact (emitted_payload_is_stripped PState.on [32, 32] [32, 32]
        (by decide) (by decide)).2 (by decide)
  · exact (emitted_payload_is_stripped PState.on [28] [28]
        (by decide) (by decide)).2 (by decide)

end Uart
